import Mathlib

/-!
Verification of the Terminal Transcript Segmentation Engine
(`script_to_jsonl.py`, class `ScriptParser`).

Lines and transcripts are modelled as `List Char`.  Each regex-driven
substitution pass of `ScriptParser.clean_line` is embedded as a left-to-right
scanner with the exact semantics of Python `re.sub` on the concrete pattern
(non-overlapping matches, scanning resumes after each match, advancing one
character when no match starts at the current position).  Whitespace predicates
model the ASCII part of Python's whitespace classes; the parser only ever
applies them to lines already stripped of control characters, where the two
coincide for ASCII input.
-/

/-- Character class of the prompt terminators in the source regex
`[\x24#%>]` (dollar, hash, percent, greater-than). -/
def isTerminator (c : Char) : Bool :=
  c = '$' || c = '#' || c = '%' || c = '>'

/-- ASCII whitespace as matched by Python's `\s` and stripped by
`str.strip` / `str.rstrip`. -/
def isPySpace (c : Char) : Bool :=
  c = ' ' || c = '\t' || c = '\n' || c = '\r' || c = '\x0b' || c = '\x0c'

/-- Python `str.rstrip()`: drop trailing whitespace. -/
def pyRStrip (l : List Char) : List Char :=
  (l.reverse.dropWhile isPySpace).reverse

/-- Python `str.strip()`: drop leading and trailing whitespace. -/
def pyStrip (l : List Char) : List Char :=
  pyRStrip (l.dropWhile isPySpace)

/-- Python `'\n'.join(...)`. -/
def joinNL (outs : List (List Char)) : List Char :=
  List.intercalate ['\n'] outs

/-- True when the list contains a BEL character, the terminator required by
the window-title pattern. -/
def hasBel (l : List Char) : Bool := l.any (· = '\x07')

/-- Drop everything up to and including the first BEL character. -/
def dropThroughBel : List Char → List Char
  | [] => []
  | c :: rest => if c = '\x07' then rest else dropThroughBel rest

/-- Substitution pass for the first terminal-control pattern, the
window-title sequence: a literal right bracket, `0;`, any characters other
than BEL, then BEL; each match is removed.  `fuel` bounds the recursion; the
wrapper `stripTitle` supplies the input length, which always suffices because
every step consumes at least one character. -/
def stripTitleF : Nat → List Char → List Char
  | _, [] => []
  | 0, l => l
  | fuel+1, ']' :: '0' :: ';' :: rest =>
      if hasBel rest then stripTitleF fuel (dropThroughBel rest)
      else ']' :: stripTitleF fuel ('0' :: ';' :: rest)
  | fuel+1, c :: rest => c :: stripTitleF fuel rest

/-- Window-title stripping pass of `clean_line`. -/
def stripTitle (l : List Char) : List Char := stripTitleF l.length l

/-- Substitution pass for the bracketed-paste pattern: an optional left
bracket, then `?2004`, then `h` or `l`; each match is removed.  The optional
bracket is preferred when present, exactly as the regex engine tries the
longer alternative first at each position. -/
def stripPaste : List Char → List Char
  | [] => []
  | '[' :: '?' :: '2' :: '0' :: '0' :: '4' :: 'h' :: r => stripPaste r
  | '[' :: '?' :: '2' :: '0' :: '0' :: '4' :: 'l' :: r => stripPaste r
  | '?' :: '2' :: '0' :: '0' :: '4' :: 'h' :: r => stripPaste r
  | '?' :: '2' :: '0' :: '0' :: '4' :: 'l' :: r => stripPaste r
  | c :: rest => c :: stripPaste rest

/-- Fe-class byte accepted right after ESC by the first alternative of the
ANSI pattern: `@` through `Z`, or backslash through underscore (the range in
the source class spans 0x5C to 0x5F). -/
def isFeByte (c : Char) : Bool :=
  (0x40 ≤ c.toNat && c.toNat ≤ 0x5a) || (0x5c ≤ c.toNat && c.toNat ≤ 0x5f)

/-- CSI parameter byte, source class `[0-?]` (0x30 to 0x3F). -/
def isParamByte (c : Char) : Bool := 0x30 ≤ c.toNat && c.toNat ≤ 0x3f

/-- CSI intermediate byte, source class from space to slash (0x20 to 0x2F). -/
def isInterByte (c : Char) : Bool := 0x20 ≤ c.toNat && c.toNat ≤ 0x2f

/-- CSI final byte, source class `[@-~]` (0x40 to 0x7E). -/
def isFinalByte (c : Char) : Bool := 0x40 ≤ c.toNat && c.toNat ≤ 0x7e

/-- Attempt to match the CSI body (parameter bytes, intermediate bytes, one
final byte) at the head of `rest`; on success return the remainder after the
final byte.  The three byte classes are pairwise disjoint, so the greedy
star matching of the source regex never benefits from backtracking and this
deterministic scan is exact. -/
def csiMatch (rest : List Char) : Option (List Char) :=
  match (rest.dropWhile isParamByte).dropWhile isInterByte with
  | c :: r => if isFinalByte c then some r else none
  | [] => none

/-- Substitution pass for the ANSI escape pattern: ESC followed by a single
Fe byte, or ESC `[` followed by a CSI body; each match is removed.  When no
alternative matches at an ESC, the scan advances one character, as `re.sub`
does.  `fuel` bounds the recursion; the wrapper supplies the input length. -/
def stripAnsiF : Nat → List Char → List Char
  | _, [] => []
  | 0, l => l
  | fuel+1, '\x1b' :: rest =>
      match rest with
      | [] => ['\x1b']
      | c :: r =>
        if c = '[' then
          match csiMatch r with
          | some rem => stripAnsiF fuel rem
          | none => '\x1b' :: stripAnsiF fuel (c :: r)
        else if isFeByte c then stripAnsiF fuel r
        else '\x1b' :: stripAnsiF fuel (c :: r)
  | fuel+1, c :: rest => c :: stripAnsiF fuel rest

/-- ANSI escape stripping pass of `clean_line`. -/
def stripAnsi (l : List Char) : List Char := stripAnsiF l.length l

/-- Character class of the final catch-all pass: 0x00 to 0x08, 0x0B to 0x1F,
0x7F (all control characters except tab and newline). -/
def isCatchCtl (c : Char) : Bool :=
  c.toNat ≤ 0x08 || (0x0b ≤ c.toNat && c.toNat ≤ 0x1f) || c.toNat = 0x7f

/-- Catch-all control-character removal pass of `clean_line`. -/
def stripCtl (l : List Char) : List Char :=
  l.filter (fun c => !isCatchCtl c)

/-- `ScriptParser.clean_line`: the four terminal-control passes in list
order (window title, bracketed paste, shift-out 0x0E, shift-in 0x0F), then
the ANSI escape pass, then the catch-all control-character pass. -/
def clean_line (l : List Char) : List Char :=
  stripCtl (stripAnsi (((stripPaste (stripTitle l)).filter (· ≠ '\x0e')).filter (· ≠ '\x0f')))

/-- Python `content.replace(chr(13) ++ chr(10), chr(10))`: left-to-right
non-overlapping replacement of each CR LF pair by LF. -/
def replCRLF : List Char → List Char
  | '\r' :: '\n' :: rest => '\n' :: replCRLF rest
  | c :: rest => c :: replCRLF rest
  | [] => []

/-- `ScriptParser.normalize_content`: CR LF to LF, then every remaining CR
to LF, then remove all NUL bytes. -/
def normalize_content (l : List Char) : List Char :=
  ((replCRLF l).map (fun c => if c = '\r' then '\n' else c)).filter (· ≠ '\x00')

/-- Python `content.split(chr(10))`: split at every LF, keeping empty
pieces; the empty content yields one empty line. -/
def splitNL : List Char → List (List Char)
  | [] => [[]]
  | '\n' :: rest => [] :: splitNL rest
  | c :: rest =>
      match splitNL rest with
      | [] => [[c]]
      | line :: more => (c :: line) :: more

/-- Boolean truth of the sentinel tail `.*?\x5b.*?\x5d` anchored at the end:
the piece after the fixed prefix must end in a right bracket with a left
bracket somewhere before it.  Laziness of the stars is irrelevant to whether
a match exists. -/
def bracketTail (rest : List Char) : Bool :=
  rest.dropLast.any (· = '[') && rest.getLast? = some ']'

/-- `ScriptParser.script_start` match: the line starts with the literal
header and its remainder has the bracketed tail. -/
def script_start (line : List Char) : Bool :=
  ("Script started on".toList).isPrefixOf line && bracketTail (line.drop 17)

/-- `ScriptParser.script_end` match: the line starts with the literal footer
and its remainder has the bracketed tail. -/
def script_end (line : List Char) : Bool :=
  ("Script done on".toList).isPrefixOf line && bracketTail (line.drop 14)

/-- Scanning core of the prompt regex: the lazy group `(.+?)` grows the
prefix one character at a time, so a match fires at the first terminator
preceded by at least one character; group two is the remainder with the
whitespace run after the terminator consumed by `\s*`. -/
def promptSplit (pre : List Char) : List Char → Option (List Char × List Char)
  | [] => none
  | c :: rest =>
      if isTerminator c then some (pre.reverse, rest.dropWhile isPySpace)
      else promptSplit (c :: pre) rest

/-- `ScriptParser.prompt_pattern` applied with `re.match` to a cleaned line
(which never contains a newline): `none` when the line has no terminator at
position one or later, otherwise the pair (group one, group two). -/
def prompt_match : List Char → Option (List Char × List Char)
  | [] => none
  | c :: rest => promptSplit [c] rest

/-- One emitted record: `id` is the decimal rendering of the counter at
emission time, `command` stores the parser's nullable current-command field
at finalization, `output` the joined and stripped buffered output. -/
structure CommandRecord where
  id : String
  command : Option (List Char)
  output : List Char
deriving DecidableEq, Repr

/-- The mutable state of one invocation of
`ScriptParser.parse_script_output`: the session flag, the nullable current
command, the buffered output lines, the next record id, and the records
appended so far. -/
structure PState where
  in_session : Bool
  current_command : Option (List Char)
  current_output : List (List Char)
  command_id : Nat
  acc : List CommandRecord
deriving DecidableEq, Repr

/-- State at loop entry: outside a session, no command, empty buffer, id
counter one, no records. -/
def initState : PState :=
  { in_session := false, current_command := none, current_output := [],
    command_id := 1, acc := [] }

/-- Finalization step shared by the prompt branch and the end-of-input
branch: when a command is open, append a record carrying the decimal id,
the command, and the stripped join of the buffered output, and increment
the counter; otherwise do nothing. -/
def emitRecord (s : PState) : PState :=
  match s.current_command with
  | none => s
  | some _ =>
      { s with
        acc := s.acc ++ [{ id := Nat.repr s.command_id,
                           command := s.current_command,
                           output := pyStrip (joinNL s.current_output) }],
        command_id := s.command_id + 1 }

/-- Python `cleaned.startswith` on the pair of a space and a tab. -/
def startsWithIndent : List Char → Bool
  | [] => false
  | c :: _ => c = ' ' || c = '\t'

/-- Body of the loop for one in-session line: clean it; on a prompt match
finalize any open command, then open the stripped trailing text as the new
command (null when empty) with an empty buffer; otherwise either adopt a
non-empty, non-indented line as an implicit command when none is open, or
append the right-stripped line to the buffer unless it equals the open
command (echo suppression). -/
def handleLine (s : PState) (line : List Char) : PState :=
  let cleaned := clean_line line
  match prompt_match cleaned with
  | some (_, g2) =>
      let command_part := pyStrip g2
      let s1 := emitRecord s
      { s1 with
        current_command := if command_part.isEmpty then none else some command_part,
        current_output := [] }
  | none =>
      let stripped := pyStrip cleaned
      if s.current_command = none ∧ stripped ≠ [] ∧ startsWithIndent cleaned = false then
        { s with current_command := some stripped, current_output := [] }
      else
        match s.current_command with
        | none => s
        | some cmd =>
            if stripped = cmd then s
            else { s with current_output := s.current_output ++ [pyRStrip cleaned] }

/-- The line loop of `parse_script_output`: a start-sentinel line sets the
session flag and is consumed; an end-sentinel line breaks out of the loop;
out-of-session lines are skipped; in-session lines go to `handleLine`. -/
def runLines (s : PState) : List (List Char) → PState
  | [] => s
  | line :: rest =>
      if script_start line then runLines { s with in_session := true } rest
      else if script_end line then s
      else if s.in_session then runLines (handleLine s line) rest
      else runLines s rest

/-- Records produced from a list of lines: run the loop from the initial
state, then run the final-command block (identical to the prompt-branch
finalization). -/
def parseLines (lines : List (List Char)) : List CommandRecord :=
  (emitRecord (runLines initState lines)).acc

/-- `ScriptParser.parse_script_output` on whole content: normalize, split
on LF, run the loop. -/
def parse_script_output (content : List Char) : List CommandRecord :=
  parseLines (splitNL (normalize_content content))

/-- Modelled from the spec: prompt matching as the specification describes
it, with the prefix consuming as much of the line as possible, so the split
happens at the last terminator that has at least one character before it.
Used only to compare the specified behaviour with `prompt_match`. -/
def promptMatchSpec (l : List Char) : Option (List Char × List Char) :=
  match ((List.range l.length).filter
      (fun i => decide (1 ≤ i) && isTerminator (l.getD i ' '))).getLast? with
  | some i => some (l.take i, (l.drop (i+1)).dropWhile isPySpace)
  | none => none

/-- A line is blank when it strips to nothing. -/
def isBlankLine (l : List Char) : Bool := (pyStrip l).isEmpty

/-- Modelled from the spec: join the buffered output lines with newlines
and remove only the leading and trailing blank lines, preserving the
whitespace inside the surviving lines.  Used only to compare the specified
finalization with the one the code performs. -/
def specJoinTrim (outs : List (List Char)) : List Char :=
  joinNL (((outs.dropWhile isBlankLine).reverse.dropWhile isBlankLine).reverse)

/-- Rewrite a transcript from LF line endings to CR LF line endings. -/
def toCRLF : List Char → List Char
  | [] => []
  | '\n' :: rest => '\r' :: '\n' :: toCRLF rest
  | c :: rest => c :: toCRLF rest

theorem hasBel_eq_false {l : List Char} (h : '\x07' ∉ l) : hasBel l = false := by
  simp only [hasBel, List.any_eq_false, decide_eq_true_eq]
  intro c hc
  exact fun he => h (he ▸ hc)

theorem stripTitleF_id (fuel : Nat) (l : List Char) (h : '\x07' ∉ l) :
    stripTitleF fuel l = l := by
  induction fuel, l using stripTitleF.induct with
  | case1 => simp [stripTitleF]
  | case2 => simp [stripTitleF]
  | case3 fuel rest hb ih =>
      rw [hasBel_eq_false (fun hc => h (by simp [hc]))] at hb
      exact absurd hb (by simp)
  | case4 fuel rest hb ih =>
      have ih' := ih (fun hc => h (by simp [hc]))
      simp [stripTitleF, hb, ih']
  | case5 fuel c rest hne ih =>
      have ih' := ih (fun hc => h (by simp [hc]))
      simp_all [stripTitleF]

theorem stripAnsiF_id (fuel : Nat) (l : List Char) (h : '\x1b' ∉ l) :
    stripAnsiF fuel l = l := by
  induction fuel, l using stripAnsiF.induct with
  | case1 => simp [stripAnsiF]
  | case2 => simp [stripAnsiF]
  | case3 fuel => exact absurd (by simp : '\x1b' ∈ ('\x1b' :: [])) h
  | case4 => exact absurd (by simp : '\x1b' ∈ _) h
  | case5 => exact absurd (by simp : '\x1b' ∈ _) h
  | case6 => exact absurd (by simp : '\x1b' ∈ _) h
  | case7 => exact absurd (by simp : '\x1b' ∈ _) h
  | case8 fuel c rest hne ih =>
      have ih' := ih (fun hc => h (by simp [hc]))
      simp_all [stripAnsiF]

theorem promptSplit_no_terminator (t : Char) (mid : List Char) (ht : isTerminator t = true) :
    ∀ (ptail : List Char) (acc : List Char),
      (∀ c ∈ ptail, isTerminator c = false) →
      promptSplit acc (ptail ++ t :: mid) = some (acc.reverse ++ ptail, mid.dropWhile isPySpace) := by
  intro ptail
  induction ptail with
  | nil => intro acc _; simp [promptSplit, ht]
  | cons c ptail ih =>
      intro acc hno
      have hc : isTerminator c = false := hno c (by simp)
      simp only [List.cons_append, promptSplit, hc, Bool.false_eq_true, if_false]
      simpa using ih (c :: acc) (fun d hd => hno d (by simp [hd]))

/-- C1 (amended): the prompt match splits a line at the first terminator
that has at least one character before it: whenever the line decomposes as
a non-empty prefix, a terminator, and a remainder, with no terminator in
the prefix past its first character, the match returns exactly that prefix
as group one and the remainder without its leading whitespace as group
two.  The lazy group in the source pattern makes the prefix as short as
possible, not as long as possible. -/
theorem prompt_match_splits_at_first_terminator (pre mid : List Char) (t : Char)
    (hpre : pre ≠ []) (ht : isTerminator t = true)
    (hmin : ∀ c ∈ pre.tail, isTerminator c = false)
    (hnl : '\n' ∉ pre ++ t :: mid) :
    prompt_match (pre ++ t :: mid) = some (pre, mid.dropWhile isPySpace) := by
  cases pre with
  | nil => exact absurd rfl hpre
  | cons p ptail =>
      simp only [List.cons_append, prompt_match]
      rw [promptSplit_no_terminator t mid ht ptail [p] (by simpa using hmin)]
      simp

/-- C1 witness: a concrete prompt line split by the amended theorem. -/
theorem prompt_match_splits_at_first_terminator_witness :
    prompt_match (("user@host:~".toList) ++ '$' :: (" ls -la".toList))
      = some ("user@host:~".toList, "ls -la".toList) := by
  rw [prompt_match_splits_at_first_terminator _ _ _ (by decide) (by decide) (by decide) (by decide)]
  decide

/-- C1 counterexample: on a line with two terminators the code splits at
the first one (lazy prefix), while the specified behaviour (prefix
consuming as much as possible, split at the last plausible terminator)
gives a different split. -/
theorem prompt_match_not_last_terminator :
    prompt_match (("a$b$c").toList) = some (("a").toList, ("b$c").toList) ∧
    promptMatchSpec (("a$b$c").toList) = some (("a$b").toList, ("c").toList) ∧
    prompt_match (("a$b$c").toList) ≠ promptMatchSpec (("a$b$c").toList) := by
  refine ⟨by decide, by decide, by decide⟩

/-- C2 counterexample: the stripper is not idempotent.  On the all-printable
line `?200?2004h4h` the first application removes the inner bracketed-paste
sequence and thereby assembles a new one, which a second application also
removes. -/
theorem clean_line_not_idempotent :
    clean_line (clean_line (("?200?2004h4h").toList)) ≠ clean_line (("?200?2004h4h").toList) := by
  decide

/-- C2 (amended): the stripper is a total function, and re-stripping an
already-clean line is a no-op: on any line containing no character of the
catch-all control class (which covers BEL, ESC, shift-out and shift-in) and
left unchanged by the bracketed-paste pass, `clean_line` is the identity,
and applying it twice equals applying it once.  Unrestricted idempotence
fails (see the counterexample). -/
theorem clean_line_id_of_clean (l : List Char)
    (h1 : ∀ c ∈ l, isCatchCtl c = false)
    (h2 : stripPaste l = l) :
    clean_line l = l ∧ clean_line (clean_line l) = clean_line l := by
  have hbel : '\x07' ∉ l := fun hc => absurd (h1 _ hc) (by decide)
  have hesc : '\x1b' ∉ l := fun hc => absurd (h1 _ hc) (by decide)
  have htitle : stripTitle l = l := stripTitleF_id _ _ hbel
  have hso : l.filter (· ≠ '\x0e') = l := by
    rw [List.filter_eq_self]
    intro c hc
    simp only [decide_eq_true_eq]
    intro he
    exact absurd (he ▸ h1 c hc) (by decide)
  have hsi : l.filter (· ≠ '\x0f') = l := by
    rw [List.filter_eq_self]
    intro c hc
    simp only [decide_eq_true_eq]
    intro he
    exact absurd (he ▸ h1 c hc) (by decide)
  have hansi : stripAnsi l = l := stripAnsiF_id _ _ hesc
  have hctl : stripCtl l = l := by
    rw [stripCtl, List.filter_eq_self]
    intro c hc
    simpa using h1 c hc
  have hid : clean_line l = l := by
    rw [clean_line, htitle, h2, hso, hsi, hansi, hctl]
  exact ⟨hid, by simp only [hid]⟩

/-- C2 witness: a concrete clean line on which the amended theorem applies. -/
theorem clean_line_id_of_clean_witness :
    clean_line (("hello world?!").toList) = ("hello world?!").toList ∧
    clean_line (clean_line (("hello world?!").toList)) = clean_line (("hello world?!").toList) :=
  clean_line_id_of_clean _ (by decide) (by decide)

/-- C3 counterexample: finalization strips all leading whitespace from the
joined output, not only blank lines.  On a transcript whose single command
has one output line indented by two spaces, the emitted output drops the
indentation, while removing only leading and trailing blank lines (as the
claim states) would preserve it. -/
theorem output_indentation_not_preserved :
    parse_script_output (("Script started on 2024 [x]\nhost$ cat f\n  indented\nhost$\nScript done on 2024 [x]").toList)
      = [{ id := "1", command := some ("cat f".toList), output := ("indented").toList }] ∧
    specJoinTrim [("  indented").toList] = ("  indented").toList ∧
    ("indented").toList ≠ ("  indented").toList := by
  refine ⟨by decide, by decide, by decide⟩

/-- C3 (amended): whenever a record is finalized while a command is open,
its output field equals the buffered output lines joined with newlines with
all leading and trailing whitespace of the joined result removed, so blank
lines at either end disappear and the leading whitespace of the first
non-blank output line is removed as well. -/
theorem record_output_eq_strip_join (s : PState) (cmd : List Char)
    (h : s.current_command = some cmd) :
    (emitRecord s).acc =
      s.acc ++ [{ id := Nat.repr s.command_id, command := some cmd,
                  output := pyStrip (joinNL s.current_output) }] := by
  simp [emitRecord, h]

/-- C3 witness: a concrete finalization whose buffer holds a blank line and
an indented line. -/
theorem record_output_eq_strip_join_witness :
    (emitRecord { in_session := true, current_command := some ("cat f".toList),
                  current_output := [[], ("  indented").toList], command_id := 3,
                  acc := [] }).acc
      = [] ++ [{ id := Nat.repr 3, command := some ("cat f".toList),
                 output := pyStrip (joinNL [[], ("  indented").toList]) }] :=
  record_output_eq_strip_join _ _ rfl

/-- C7: a prompt-match line whose trailing text strips to nothing first
finalizes any open command (through the shared finalization step, which
emits nothing when no command is open), then leaves the parser with a null
command and an empty output buffer; no record is produced for the bare
prompt itself. -/
theorem bare_prompt_resets (s : PState) (line g1 g2 : List Char)
    (hm : prompt_match (clean_line line) = some (g1, g2))
    (hb : pyStrip g2 = []) :
    handleLine s line =
      { emitRecord s with current_command := none, current_output := [] } := by
  simp only [handleLine, hm, hb]
  simp

/-- C7 witness: a bare prompt line processed while a command is open. -/
theorem bare_prompt_resets_witness :
    handleLine { in_session := true, current_command := some ("ls".toList),
                 current_output := [("a.txt").toList], command_id := 1, acc := [] }
        (("user@host:~$ ").toList)
      = { emitRecord { in_session := true, current_command := some ("ls".toList),
                       current_output := [("a.txt").toList], command_id := 1, acc := [] }
          with current_command := none, current_output := [] } :=
  bare_prompt_resets _ _ ("user@host:~".toList) [] (by decide) (by decide)

/-- C8: while a command is open, a cleaned non-prompt line whose stripped
content equals the command text exactly is treated as terminal echo and
leaves the parser state unchanged, so it never reaches the output buffer;
the statement holds for every state, hence for every occurrence of such a
line while the command stays open. -/
theorem echo_line_dropped (s : PState) (line cmd : List Char)
    (hnp : prompt_match (clean_line line) = none)
    (hc : s.current_command = some cmd)
    (he : pyStrip (clean_line line) = cmd) :
    handleLine s line = s := by
  simp only [handleLine, hnp, he, hc]
  simp

/-- C8 witness: the echo of a concrete open command is dropped. -/
theorem echo_line_dropped_witness :
    handleLine { in_session := true, current_command := some ("make".toList),
                 current_output := [], command_id := 2, acc := [] } (("make").toList)
      = { in_session := true, current_command := some ("make".toList),
          current_output := [], command_id := 2, acc := [] } :=
  echo_line_dropped _ _ ("make".toList) (by decide) rfl (by decide)

theorem script_start_eq_false_of_end {l : List Char} (h : script_end l = true) :
    script_start l = false := by
  rcases hs : ("Script started on".toList).isPrefixOf l with _ | _
  · simp only [script_start, hs, Bool.false_and]
  · exfalso
    have hend : ("Script done on".toList).isPrefixOf l = true := by
      simp only [script_end, Bool.and_eq_true] at h
      exact h.1
    have h1 : "Script done on".toList <+: l := by
      rw [← List.isPrefixOf_iff_prefix]; exact hend
    have h2 : "Script started on".toList <+: l := by
      rw [← List.isPrefixOf_iff_prefix]; exact hs
    have h3 : "Script done on".toList <+: "Script started on".toList :=
      List.prefix_of_prefix_length_le h1 h2 (by decide)
    rw [← List.isPrefixOf_iff_prefix] at h3
    exact absurd h3 (by decide)

theorem runLines_break (endl : List Char) (hend : script_end endl = true)
    (suf : List (List Char)) :
    ∀ (pre : List (List Char)) (s : PState),
      runLines s (pre ++ endl :: suf) = runLines s (pre ++ [endl]) := by
  intro pre
  induction pre with
  | nil =>
      intro s
      simp [runLines, script_start_eq_false_of_end hend, hend]
  | cons l pre ih =>
      intro s
      simp only [List.cons_append, runLines]
      rcases h1 : script_start l with _ | _
      · rcases h2 : script_end l with _ | _
        · simp only [Bool.false_eq_true, if_false]
          rcases h3 : s.in_session with _ | _
          · simp only [Bool.false_eq_true, if_false]; exact ih s
          · simp only [if_true]; exact ih _
        · simp
      · simp only [if_true]; exact ih _

/-- C4: processing halts at an end-sentinel line, so lines after it never
affect the emitted records, and at termination the final block emits
exactly one extra record when a command is open and none when the parser
is awaiting a command. -/
theorem end_sentinel_halts_and_final_record (pre suf : List (List Char)) (endl : List Char)
    (hend : script_end endl = true) :
    parseLines (pre ++ endl :: suf) = parseLines (pre ++ [endl]) ∧
    (parseLines (pre ++ endl :: suf)).length =
      (runLines initState (pre ++ endl :: suf)).acc.length +
        (if (runLines initState (pre ++ endl :: suf)).current_command = none then 0 else 1) := by
  constructor
  · unfold parseLines
    rw [runLines_break endl hend suf pre initState]
  · unfold parseLines
    rcases h : (runLines initState (pre ++ endl :: suf)).current_command with _ | cmd
    · simp [emitRecord, h]
    · simp [emitRecord, h]

/-- C4 witness: a concrete transcript with an end-sentinel inside the
session, an open command at the sentinel, and junk lines after it. -/
theorem end_sentinel_halts_and_final_record_witness :
    parseLines ([("Script started on 2024 [x]").toList, ("host$ ls").toList, ("a.txt").toList]
        ++ ("Script done on 2024 [x]").toList :: [("host$ rm -rf x").toList])
      = parseLines ([("Script started on 2024 [x]").toList, ("host$ ls").toList, ("a.txt").toList]
        ++ [("Script done on 2024 [x]").toList]) ∧
    (parseLines ([("Script started on 2024 [x]").toList, ("host$ ls").toList, ("a.txt").toList]
        ++ ("Script done on 2024 [x]").toList :: [("host$ rm -rf x").toList])).length =
      (runLines initState ([("Script started on 2024 [x]").toList, ("host$ ls").toList, ("a.txt").toList]
        ++ ("Script done on 2024 [x]").toList :: [("host$ rm -rf x").toList])).acc.length +
        (if (runLines initState ([("Script started on 2024 [x]").toList, ("host$ ls").toList, ("a.txt").toList]
        ++ ("Script done on 2024 [x]").toList :: [("host$ rm -rf x").toList])).current_command = none then 0 else 1) :=
  end_sentinel_halts_and_final_record _ _ _ (by decide)

theorem runLines_no_start (s : PState) (hs : s.in_session = false) :
    ∀ (lines : List (List Char)), (∀ l ∈ lines, script_start l = false) →
      runLines s lines = s := by
  intro lines
  induction lines with
  | nil => intro _; rfl
  | cons l rest ih =>
      intro h
      simp only [runLines, h l (by simp), Bool.false_eq_true, if_false, hs]
      rcases h2 : script_end l with _ | _
      · simp only [Bool.false_eq_true, if_false]
        exact ih (fun d hd => h d (by simp [hd]))
      · simp

/-- C5: a transcript none of whose lines matches the start-sentinel format
produces zero records, whatever else it contains. -/
theorem no_start_sentinel_no_records (lines : List (List Char))
    (h : ∀ l ∈ lines, script_start l = false) :
    parseLines lines = [] := by
  unfold parseLines
  rw [runLines_no_start initState rfl lines h]
  rfl

/-- C5 witness: a start-free transcript with prompt-shaped lines still
yields no records. -/
theorem no_start_sentinel_no_records_witness :
    parseLines [("host$ ls").toList, ("a.txt").toList, ("host$ pwd").toList] = [] :=
  no_start_sentinel_no_records _ (by decide)

/-- C10: an end-sentinel encountered before any start-sentinel halts
processing at once and the engine emits zero records, even when a valid
start-sentinel and prompt lines follow it: the end-sentinel test runs on
every line, also outside an active session. -/
theorem end_before_start_zero_records (pre suf : List (List Char)) (endl : List Char)
    (hend : script_end endl = true)
    (hpre : ∀ l ∈ pre, script_start l = false) :
    parseLines (pre ++ endl :: suf) = [] := by
  unfold parseLines
  have key : ∀ (p : List (List Char)), (∀ l ∈ p, script_start l = false) →
      runLines initState (p ++ endl :: suf) = initState := by
    intro p
    induction p with
    | nil =>
        intro _
        simp [runLines, script_start_eq_false_of_end hend, hend]
    | cons l p ih =>
        intro hp
        simp only [List.cons_append, runLines, hp l (by simp), Bool.false_eq_true, if_false]
        rcases h2 : script_end l with _ | _
        · simp only [Bool.false_eq_true, if_false, initState]
          exact ih (fun d hd => hp d (by simp [hd]))
        · simp
  rw [key pre hpre]
  rfl

/-- C10 witness: an end-sentinel first, then a start-sentinel and a prompt
line; no records come out. -/
theorem end_before_start_zero_records_witness :
    parseLines ([("leftover text").toList] ++ ("Script done on 2024 [x]").toList ::
        [("Script started on 2024 [x]").toList, ("host$ ls").toList]) = [] :=
  end_before_start_zero_records _ _ _ (by decide) (by decide)

/-- Invariant tying the id counter to the number of emitted records, the
emitted ids to consecutive decimal strings, and every emitted record to a
non-null command. -/
def goodState (s : PState) : Prop :=
  s.command_id = s.acc.length + 1 ∧
  s.acc.map CommandRecord.id = (List.range s.acc.length).map (fun i => Nat.repr (i + 1)) ∧
  ∀ r ∈ s.acc, r.command ≠ none

theorem goodState_initState : goodState initState := by
  refine ⟨rfl, rfl, ?_⟩
  intro r hr
  simp [initState] at hr

theorem goodState_emitRecord (s : PState) (h : goodState s) : goodState (emitRecord s) := by
  obtain ⟨h1, h2, h3⟩ := h
  unfold emitRecord
  rcases hc : s.current_command with _ | cmd
  · exact ⟨h1, h2, h3⟩
  · refine ⟨by simp [h1], ?_, ?_⟩
    · simp only [List.map_append, List.length_append, List.length_cons, List.length_nil,
        List.range_succ, List.map_cons, List.map_nil, h2, h1]
    · intro r hr
      rcases List.mem_append.mp hr with hm | hm
      · exact h3 r hm
      · simp only [List.mem_singleton] at hm
        subst hm
        simp [hc]

theorem goodState_handleLine (s : PState) (line : List Char) (h : goodState s) :
    goodState (handleLine s line) := by
  have he := goodState_emitRecord s h
  have key : ∀ t u : PState, goodState t → u.command_id = t.command_id → u.acc = t.acc →
      goodState u := by
    intro t u ht h1 h2
    unfold goodState
    rw [h1, h2]
    exact ⟨ht.1, ht.2.1, ht.2.2⟩
  unfold handleLine
  rcases hp : prompt_match (clean_line line) with _ | ⟨g1, g2⟩
  · simp only [hp]
    split
    · exact key s _ h rfl rfl
    · split
      · exact key s _ h rfl rfl
      · split
        · exact key s _ h rfl rfl
        · exact key s _ h rfl rfl
  · simp only [hp]
    exact key (emitRecord s) _ he rfl rfl

theorem goodState_runLines (lines : List (List Char)) :
    ∀ (s : PState), goodState s → goodState (runLines s lines) := by
  induction lines with
  | nil => intro s h; exact h
  | cons l rest ih =>
      intro s h
      simp only [runLines]
      rcases h1 : script_start l with _ | _
      · rcases h2 : script_end l with _ | _
        · simp only [Bool.false_eq_true, if_false]
          rcases h3 : s.in_session with _ | _
          · simp only [Bool.false_eq_true, if_false]
            exact ih s h
          · simp only [if_true]
            exact ih _ (goodState_handleLine s l h)
        · simp only [if_true, Bool.false_eq_true, if_false]
          exact h
      · simp only [if_true]
        exact ih _ ⟨h.1, h.2.1, h.2.2⟩

/-- C6: in every record sequence the engine emits, the id fields are the
decimal renderings of the consecutive integers one, two, three and so on in
emission order (assigned by the internal counter, independent of the input
content), and every emitted record carries a non-null command. -/
theorem ids_sequential_and_commands_non_null (lines : List (List Char)) :
    (parseLines lines).map CommandRecord.id
        = (List.range (parseLines lines).length).map (fun i => Nat.repr (i + 1)) ∧
    ∀ r ∈ parseLines lines, r.command ≠ none := by
  have h := goodState_emitRecord _ (goodState_runLines lines initState goodState_initState)
  exact ⟨h.2.1, h.2.2⟩

theorem replCRLF_cons_ne (c : Char) (xs : List Char) (h : c ≠ '\r') :
    replCRLF (c :: xs) = c :: replCRLF xs := by
  cases xs <;> simp [replCRLF, h]

theorem replCRLF_id (l : List Char) (h : '\r' ∉ l) : replCRLF l = l := by
  induction l with
  | nil => rfl
  | cons c xs ih =>
      rw [replCRLF_cons_ne c xs (fun hc => h (by simp [hc]))]
      rw [ih (fun hc => h (by simp [hc]))]

theorem replCRLF_toCRLF (l : List Char) (h : '\r' ∉ l) : replCRLF (toCRLF l) = l := by
  induction l using toCRLF.induct with
  | case1 => rfl
  | case2 rest ih =>
      simp only [toCRLF, replCRLF]
      rw [ih (fun hc => h (by simp [hc]))]
  | case3 c rest hne ih =>
      simp only [toCRLF]
      rw [replCRLF_cons_ne c _ (fun hc => h (by simp [hc]))]
      rw [ih (fun hc => h (by simp [hc]))]

theorem map_decr_id (l : List Char) (h : '\r' ∉ l) :
    l.map (fun c => if c = '\r' then '\n' else c) = l := by
  induction l with
  | nil => rfl
  | cons c xs ih =>
      have hc : c ≠ '\r' := fun hc => h (by simp [hc])
      simp only [List.map_cons, if_neg hc]
      rw [ih (fun hm => h (by simp [hm]))]

/-- C9: a transcript with LF line endings and its CR LF version produce
identical record sequences; the normalizer turns CR LF pairs and lone CR
characters into LF, removes all NUL bytes, and mutates nothing else (it is
the identity on CR-free, NUL-free content, and its result never contains a
CR or a NUL). -/
theorem normalize_equivalence (c d : List Char) (hr : '\r' ∉ c) :
    parse_script_output (toCRLF c) = parse_script_output c ∧
    ('\x00' ∉ c → normalize_content c = c) ∧
    '\r' ∉ normalize_content d ∧ '\x00' ∉ normalize_content d := by
  refine ⟨?_, ?_, ?_, ?_⟩
  · have hn : normalize_content (toCRLF c) = normalize_content c := by
      unfold normalize_content
      rw [replCRLF_toCRLF c hr, replCRLF_id c hr]
    unfold parse_script_output
    rw [hn]
  · intro h0
    unfold normalize_content
    rw [replCRLF_id c hr, map_decr_id c hr, List.filter_eq_self]
    intro a ha
    simp only [decide_eq_true_eq]
    intro he
    exact h0 (he ▸ ha)
  · intro hmem
    unfold normalize_content at hmem
    rw [List.mem_filter] at hmem
    rcases List.mem_map.mp hmem.1 with ⟨a, _, hfa⟩
    by_cases ha : a = '\r'
    · rw [if_pos ha] at hfa
      exact absurd hfa (by decide)
    · rw [if_neg ha] at hfa
      exact ha hfa
  · intro hmem
    unfold normalize_content at hmem
    rw [List.mem_filter] at hmem
    simpa using hmem.2

/-- C9 witness: a concrete LF transcript and its CR LF version agree, the
normalizer leaves the clean version untouched, and its output on a dirty
input holds no CR and no NUL. -/
theorem normalize_equivalence_witness :
    parse_script_output (toCRLF (("Script started on [x]\nh$ e\nhi").toList)) =
      parse_script_output (("Script started on [x]\nh$ e\nhi").toList) ∧
    normalize_content (("Script started on [x]\nh$ e\nhi").toList) =
      ("Script started on [x]\nh$ e\nhi").toList ∧
    '\r' ∉ normalize_content (("a\r\x00b").toList) ∧
    '\x00' ∉ normalize_content (("a\r\x00b").toList) := by
  have h := normalize_equivalence (("Script started on [x]\nh$ e\nhi").toList)
    (("a\r\x00b").toList) (by decide)
  exact ⟨h.1, h.2.1 (by decide), h.2.2.1, h.2.2.2⟩
